import Mathlib

/-!
Verification of the team-allocation logic of `EdibleFC_randomiser.py`
(`generate_teams`, lines 109-148), shallowly embedded in Lean.

Modelling choices:
* A `Player` is a `(name, position)` pair of strings, exactly as in the code.
* Randomness is explicit: a run consumes a stream of natural-number draws
  (`List Nat`); `pyShuffle` is the Fisher-Yates loop of `random.shuffle`
  (for `i` from `len-1` down to `1`, pick `j = draw % (i+1)` and swap).
* Python exceptions are an explicit error type: `KeyError` from the
  position-grouping dictionary, `ZeroDivisionError` from `len // 0`,
  `ValueError` from `min([])`.
* The `defaultdict(list)` result is an insertion-ordered association list
  `Teams`; a key exists only once a player has been appended to it.
* `random.shuffle(players)` mutates the caller's list, so `generate_teams`
  returns the final state of that list alongside the team mapping.
-/

inductive PyError where
  | keyError
  | zeroDivisionError
  | valueError
deriving DecidableEq

abbrev Player := String × String

abbrev Teams := List (Nat × List Player)

/-- `x[i], x[j] = x[j], x[i]` on a list (identity when an index is out of range;
the shuffle loop only ever uses in-range indices). -/
def listSwap (l : List Player) (i j : Nat) : List Player :=
  if h : i < l.length ∧ j < l.length then
    (l.set i (l.get ⟨j, h.2⟩)).set j (l.get ⟨i, h.1⟩)
  else l

/-- The Fisher-Yates loop of `random.shuffle`: the counter runs from
`len - 1` down to `1`; each step draws `j = draw % (i+1)` and swaps `x[i], x[j]`.
Returns the shuffled list and the unconsumed remainder of the draw stream. -/
def fisherYatesAux : Nat → List Player → List Nat → List Player × List Nat
  | 0, x, rnd => (x, rnd)
  | i + 1, x, rnd =>
      fisherYatesAux i (listSwap x (i + 1) (rnd.headD 0 % (i + 2))) rnd.tail

/-- `random.shuffle(x)` driven by an explicit draw stream. -/
def pyShuffle (x : List Player) (rnd : List Nat) : List Player × List Nat :=
  fisherYatesAux (x.length - 1) x rnd

/-- The four position lists of `positions = {"GK": [], "DEF": [], "MID": [], "ST": []}`. -/
structure PositionGroups where
  gk : List Player
  df : List Player
  mid : List Player
  st : List Player
deriving DecidableEq

def emptyGroups : PositionGroups := ⟨[], [], [], []⟩

/-- One iteration of `positions[pos].append((name, pos))`; a position outside
the four dictionary keys raises `KeyError`. -/
def addToGroup (g : PositionGroups) (p : Player) : Except PyError PositionGroups :=
  if p.2 = "GK" then .ok { g with gk := g.gk ++ [p] }
  else if p.2 = "DEF" then .ok { g with df := g.df ++ [p] }
  else if p.2 = "MID" then .ok { g with mid := g.mid ++ [p] }
  else if p.2 = "ST" then .ok { g with st := g.st ++ [p] }
  else .error .keyError

/-- The grouping loop `for name, pos in players: positions[pos].append(...)`. -/
def groupByPosition : List Player → PositionGroups → Except PyError PositionGroups
  | [], g => .ok g
  | p :: rest, g =>
      match addToGroup g p with
      | .ok g1 => groupByPosition rest g1
      | .error e => .error e

/-- `for pos_group in positions.values(): random.shuffle(pos_group)` —
the groups are shuffled in dictionary insertion order GK, DEF, MID, ST,
consuming draws sequentially. -/
def shuffleGroups (g : PositionGroups) (rnd : List Nat) : PositionGroups × List Nat :=
  let r0 := pyShuffle g.gk rnd
  let r1 := pyShuffle g.df r0.2
  let r2 := pyShuffle g.mid r1.2
  let r3 := pyShuffle g.st r2.2
  (⟨r0.1, r1.1, r2.1, r3.1⟩, r3.2)

/-- `combined = positions["GK"] + positions["DEF"] + positions["MID"] + positions["ST"]`. -/
def combineGroups (g : PositionGroups) : List Player :=
  g.gk ++ (g.df ++ (g.mid ++ g.st))

/-- `target_sizes = [base_size + (1 if i < remainder else 0) for i in range(num_teams)]`
with `base_size = total // num_teams` and `remainder = total % num_teams`
(Python floor division and modulus, hence `Int.fdiv`/`Int.fmod`;
`range(num_teams)` is empty for non-positive `num_teams`). -/
def targetSizes (total : Nat) (numTeams : Int) : List Int :=
  (List.range numTeams.toNat).map
    (fun (i : Nat) => (total : Int).fdiv numTeams +
      if (i : Int) < (total : Int).fmod numTeams then 1 else 0)

/-- `available_teams = [i for i in range(num_teams) if team_sizes[i] < target_sizes[i]]`. -/
def availableTeams (sizes targets : List Int) (numTeams : Int) : List Nat :=
  (List.range numTeams.toNat).filter (fun i => sizes.getD i 0 < targets.getD i 0)

/-- The loop inside Python's `min(..., key=...)`: keep the current best,
replace it only on a strictly smaller key (so ties keep the earlier element). -/
def pyMinAux (key : Nat → Int) (m : Nat) : List Nat → Nat
  | [] => m
  | y :: ys => pyMinAux key (if key y < key m then y else m) ys

/-- `min(available_teams, key=lambda x: team_sizes[x])`; `min([])` raises
`ValueError`, modelled as `none`. -/
def pyMinBy (key : Nat → Int) : List Nat → Option Nat
  | [] => none
  | x :: xs => some (pyMinAux key x xs)

/-- `teams[k].append(p)` on the insertion-ordered association list that models
`defaultdict(list)`: update the entry for `k` if present, else create it at the
end (a key is created exactly when its first player arrives). -/
def appendTeam : Teams → Nat → Player → Teams
  | [], k, p => [(k, [p])]
  | (k1, l) :: rest, k, p =>
      if k1 = k then (k1, l ++ [p]) :: rest
      else (k1, l) :: appendTeam rest k p

/-- The walk state: the `teams` mapping being built and the `team_sizes` list. -/
structure AllocState where
  teams : Teams
  sizes : List Int
deriving DecidableEq

/-- One iteration of the distribution loop: compute the available teams, pick
the one with the fewest players so far (`ValueError` if none is available),
append the player to `teams[min_team + 1]` and bump `team_sizes[min_team]`. -/
def allocStep (numTeams : Int) (targets : List Int) (s : AllocState) (p : Player) :
    Except PyError AllocState :=
  match pyMinBy (fun i => s.sizes.getD i 0) (availableTeams s.sizes targets numTeams) with
  | none => .error .valueError
  | some m =>
      .ok ⟨appendTeam s.teams (m + 1) p, s.sizes.set m (s.sizes.getD m 0 + 1)⟩

/-- `for player in combined: ...` — the distribution loop. -/
def allocWalk (numTeams : Int) (targets : List Int) :
    AllocState → List Player → Except PyError AllocState
  | s, [] => .ok s
  | s, p :: rest =>
      match allocStep numTeams targets s p with
      | .ok s1 => allocWalk numTeams targets s1 rest
      | .error e => .error e

/-- `generate_teams(players, num_teams)` (lines 109-148), with the random
draws explicit.  The first component of a successful result is the final state
of the caller's `players` list (which `random.shuffle` mutates in place); the
second is the `teams` mapping. -/
def generate_teams (players : List Player) (num_teams : Int) (rnd : List Nat) :
    Except PyError (List Player × Teams) :=
  let sh := pyShuffle players rnd
  match groupByPosition sh.1 emptyGroups with
  | .error e => .error e
  | .ok groups =>
      let sg := shuffleGroups groups sh.2
      let combined := combineGroups sg.1
      if num_teams = 0 then .error .zeroDivisionError
      else
        let targets := targetSizes sh.1.length num_teams
        match allocWalk num_teams targets ⟨[], List.replicate num_teams.toNat 0⟩ combined with
        | .error e => .error e
        | .ok final => .ok (sh.1, final.teams)

/-- Reading `teams[k]` from the association list (`[]` when the key is absent,
matching `defaultdict`'s notion of an unwritten key). -/
def teamList : Teams → Nat → List Player
  | [], _ => []
  | (k1, l) :: rest, k => if k1 = k then l else teamList rest k

/-- The keys of the mapping, in insertion order. -/
def keysOf (ts : Teams) : List Nat := ts.map Prod.fst

/-- The concatenation of all teams' player lists (their multiset union). -/
def allAssigned (ts : Teams) : List Player :=
  (ts.map Prod.snd).flatten

/-- A position string is one of the four the grouping dictionary knows. -/
def validPos (p : Player) : Bool :=
  p.2 == "GK" || p.2 == "DEF" || p.2 == "MID" || p.2 == "ST"

/-- A roster as the data model defines it: every position is GK/DEF/MID/ST. -/
def validRoster (players : List Player) : Prop :=
  ∀ p ∈ players, validPos p = true

instance (players : List Player) : Decidable (validRoster players) := by
  unfold validRoster; infer_instance

/-- The fixed position order GK, DEF, MID, ST used to build `combined`. -/
def posRank (pos : String) : Nat :=
  if pos = "GK" then 0
  else if pos = "DEF" then 1
  else if pos = "MID" then 2
  else if pos = "ST" then 3
  else 4

instance {ε α : Type} [DecidableEq ε] [DecidableEq α] : DecidableEq (Except ε α) := fun a b =>
  match a, b with
  | .error e, .error f =>
      match decEq e f with
      | isTrue h => isTrue (congrArg Except.error h)
      | isFalse h => isFalse (fun c => h (Except.error.inj c))
  | .error _, .ok _ => isFalse (fun c => Except.noConfusion c)
  | .ok _, .error _ => isFalse (fun c => Except.noConfusion c)
  | .ok x, .ok y =>
      match decEq x y with
      | isTrue h => isTrue (congrArg Except.ok h)
      | isFalse h => isFalse (fun c => h (Except.ok.inj c))

/-- The teams component of a run's result (`[]` on the error path). -/
def resultTeams (r : Except PyError (List Player × Teams)) : Teams :=
  match r with
  | .ok x => x.2
  | .error _ => []

/-- The final state of the caller's roster list (`[]` on the error path). -/
def resultRoster (r : Except PyError (List Player × Teams)) : List Player :=
  match r with
  | .ok x => x.1
  | .error _ => []

/-- Each group holds only players of its own position (an invariant of the
grouping loop, used to show `combined` is ordered by position). -/
def groupsPos (g : PositionGroups) : Prop :=
  (∀ p ∈ g.gk, p.2 = "GK") ∧ (∀ p ∈ g.df, p.2 = "DEF") ∧
    (∀ p ∈ g.mid, p.2 = "MID") ∧ (∀ p ∈ g.st, p.2 = "ST")

/-- The inductive invariant of the distribution loop, after the players of
`consumed` have been handed out with `T` teams and capacities `targets`. -/
structure WalkInv (targets : List Int) (T : Nat) (consumed : List Player)
    (s : AllocState) : Prop where
  hlen : s.sizes.length = T
  hnn : ∀ i, 0 ≤ s.sizes.getD i 0
  hbound : ∀ i, i < T → s.sizes.getD i 0 ≤ targets.getD i 0
  hsum : s.sizes.sum = consumed.length
  hteamlen : ∀ i, i < T → ((teamList s.teams (i + 1)).length : Int) = s.sizes.getD i 0
  hkeys : ∀ kv ∈ s.teams, 1 ≤ kv.1 ∧ kv.1 ≤ T ∧ kv.2 ≠ []
  hperm : (allAssigned s.teams).Perm consumed
  hsub : ∀ k, (teamList s.teams k).Sublist consumed

/-! ### Permutation facts about the shuffle -/

theorem set_getElem_id (l : List Player) (i : Nat) (h : i < l.length) :
    l.set i l[i] = l := by
  apply List.ext_getElem?
  intro j
  by_cases hij : i = j
  · subst hij
    rw [List.getElem?_set_self h, List.getElem?_eq_getElem h]
  · rw [List.getElem?_set_ne hij]

theorem double_set_decomp (l : List Player) (i j : Nat) (x y : Player)
    (hij : i < j) (hj : j < l.length) :
    (l.set i x).set j y
      = l.take i ++ x :: ((l.drop (i + 1)).take (j - i - 1) ++ y :: l.drop (j + 1)) := by
  have hi : i < l.length := lt_trans hij hj
  have hlt : (l.take i).length = i := by
    rw [List.length_take]; omega
  rw [List.set_eq_take_cons_drop x hi, List.set_append_right j y (by omega)]
  rw [hlt]
  set d := j - i - 1 with hd
  have hji : j - i = d + 1 := by omega
  rw [hji, List.set_cons_succ]
  have hdl : d < (l.drop (i + 1)).length := by
    rw [List.length_drop]; omega
  rw [List.set_eq_take_cons_drop y hdl, List.drop_drop]
  have harith : i + 1 + (d + 1) = j + 1 := by omega
  rw [harith]

theorem swap_perm_of_lt (l : List Player) (i j : Nat) (hij : i < j) (hj : j < l.length) :
    ((l.set i l[j]).set j l[i]).Perm l := by
  have hi : i < l.length := lt_trans hij hj
  have hl : (l.set i l[i]).set j l[j] = l := by
    rw [set_getElem_id l i hi, set_getElem_id l j hj]
  conv_rhs => rw [← hl, double_set_decomp l i j l[i] l[j] hij hj]
  rw [double_set_decomp l i j l[j] l[i] hij hj]
  apply List.Perm.append_left
  conv_rhs => rw [← List.cons_append]
  exact List.perm_cons_append_cons _ List.perm_middle

theorem listSwap_perm (l : List Player) (i j : Nat) : (listSwap l i j).Perm l := by
  unfold listSwap
  split
  case isTrue h =>
    obtain ⟨hi, hj⟩ := h
    simp only [List.get_eq_getElem]
    rcases lt_trichotomy i j with hij | heq | hij
    · exact swap_perm_of_lt l i j hij hj
    · subst heq
      rw [List.set_set, set_getElem_id]
    · rw [List.set_comm _ _ _ (Nat.ne_of_gt hij)]
      exact swap_perm_of_lt l j i hij hi
  case isFalse h => exact List.Perm.refl l

theorem fisherYatesAux_perm (n : Nat) (x : List Player) (rnd : List Nat) :
    (fisherYatesAux n x rnd).1.Perm x := by
  induction n generalizing x rnd with
  | zero => exact List.Perm.refl x
  | succ i ih =>
    exact (ih (listSwap x (i + 1) (rnd.headD 0 % (i + 2))) rnd.tail).trans
      (listSwap_perm x (i + 1) (rnd.headD 0 % (i + 2)))

theorem pyShuffle_perm (x : List Player) (rnd : List Nat) :
    (pyShuffle x rnd).1.Perm x :=
  fisherYatesAux_perm (x.length - 1) x rnd

theorem pyShuffle_length (x : List Player) (rnd : List Nat) :
    (pyShuffle x rnd).1.length = x.length :=
  (pyShuffle_perm x rnd).length_eq

/-! ### The position grouping -/

theorem perm_of_coe_eq {a b : List Player} (h : (a : Multiset Player) = b) : a.Perm b :=
  Multiset.coe_eq_coe.mp h

theorem addToGroup_ok_combine (g : PositionGroups) (p : Player) (g1 : PositionGroups)
    (h : addToGroup g p = .ok g1) :
    (combineGroups g1).Perm (combineGroups g ++ [p]) := by
  unfold addToGroup at h
  split_ifs at h <;> cases h <;>
    · apply perm_of_coe_eq
      simp only [combineGroups, ← Multiset.coe_add, ← Multiset.coe_singleton]
      abel

theorem groupByPosition_ok_combine (l : List Player) :
    ∀ (g g1 : PositionGroups), groupByPosition l g = .ok g1 →
      (combineGroups g1).Perm (combineGroups g ++ l) := by
  induction l with
  | nil =>
    intro g g1 h
    cases h
    simp
  | cons p rest ih =>
    intro g g1 h
    unfold groupByPosition at h
    cases hadd : addToGroup g p with
    | error e => rw [hadd] at h; cases h
    | ok gmid =>
      rw [hadd] at h
      have h1 := addToGroup_ok_combine g p gmid hadd
      have h2 := ih gmid g1 h
      refine h2.trans ?_
      refine (h1.append_right rest).trans ?_
      simp

theorem addToGroup_error_iff (g : PositionGroups) (p : Player) :
    addToGroup g p = .error .keyError ↔ validPos p = false := by
  unfold addToGroup validPos
  split_ifs <;> simp_all

theorem addToGroup_error_shape (g : PositionGroups) (p : Player) (e : PyError)
    (h : addToGroup g p = .error e) : e = .keyError := by
  unfold addToGroup at h
  split_ifs at h <;> cases h
  rfl

theorem addToGroup_ok_of_valid (g : PositionGroups) (p : Player) (h : validPos p = true) :
    ∃ g1, addToGroup g p = .ok g1 := by
  unfold validPos at h
  unfold addToGroup
  split_ifs with h1 h2 h3 h4
  · exact ⟨_, rfl⟩
  · exact ⟨_, rfl⟩
  · exact ⟨_, rfl⟩
  · exact ⟨_, rfl⟩
  · simp only [Bool.or_eq_true, beq_iff_eq] at h
    tauto

theorem addToGroup_groupsPos (g : PositionGroups) (p : Player) (g1 : PositionGroups)
    (hg : groupsPos g) (h : addToGroup g p = .ok g1) : groupsPos g1 := by
  obtain ⟨h1, h2, h3, h4⟩ := hg
  unfold addToGroup at h
  split_ifs at h with e1 e2 e3 e4 <;> cases h <;>
    refine ⟨?_, ?_, ?_, ?_⟩ <;> intro q hq <;>
    first
      | exact h1 q hq
      | exact h2 q hq
      | exact h3 q hq
      | exact h4 q hq
      | (rcases List.mem_append.mp hq with hq1 | hq1
         · first
            | exact h1 q hq1
            | exact h2 q hq1
            | exact h3 q hq1
            | exact h4 q hq1
         · rw [List.mem_singleton.mp hq1]
           assumption)

theorem groupByPosition_groupsPos (l : List Player) :
    ∀ g g1, groupsPos g → groupByPosition l g = .ok g1 → groupsPos g1 := by
  induction l with
  | nil =>
    intro g g1 hg h
    cases h
    exact hg
  | cons p rest ih =>
    intro g g1 hg h
    unfold groupByPosition at h
    cases hadd : addToGroup g p with
    | error e => rw [hadd] at h; cases h
    | ok gmid =>
      rw [hadd] at h
      exact ih gmid g1 (addToGroup_groupsPos g p gmid hg hadd) h

theorem groupByPosition_ok_of_valid (l : List Player) :
    ∀ g, (∀ p ∈ l, validPos p = true) → ∃ g1, groupByPosition l g = .ok g1 := by
  induction l with
  | nil => exact fun g _ => ⟨g, rfl⟩
  | cons p rest ih =>
    intro g hval
    obtain ⟨gmid, hadd⟩ := addToGroup_ok_of_valid g p (hval p (List.mem_cons_self p rest))
    obtain ⟨g1, h1⟩ := ih gmid (fun q hq => hval q (List.mem_cons_of_mem p hq))
    refine ⟨g1, ?_⟩
    unfold groupByPosition
    rw [hadd]
    exact h1

theorem groupByPosition_error_of_invalid (l : List Player) :
    ∀ g, (∃ p ∈ l, validPos p = false) → groupByPosition l g = .error .keyError := by
  induction l with
  | nil =>
    intro g h
    obtain ⟨p, hp, _⟩ := h
    cases hp
  | cons p rest ih =>
    intro g h
    unfold groupByPosition
    cases hadd : addToGroup g p with
    | error e => rw [addToGroup_error_shape g p e hadd]
    | ok gmid =>
      obtain ⟨q, hq, hqv⟩ := h
      rcases List.mem_cons.mp hq with rfl | hq1
      · exfalso
        have : addToGroup g q = .error .keyError := (addToGroup_error_iff g q).mpr hqv
        rw [hadd] at this
        cases this
      · exact ih gmid ⟨q, hq1, hqv⟩

theorem shuffleGroups_groupsPos (g : PositionGroups) (rnd : List Nat)
    (hg : groupsPos g) : groupsPos (shuffleGroups g rnd).1 := by
  obtain ⟨h1, h2, h3, h4⟩ := hg
  refine ⟨?_, ?_, ?_, ?_⟩ <;> intro q hq
  · exact h1 q ((pyShuffle_perm g.gk rnd).mem_iff.mp hq)
  · exact h2 q ((pyShuffle_perm g.df _).mem_iff.mp hq)
  · exact h3 q ((pyShuffle_perm g.mid _).mem_iff.mp hq)
  · exact h4 q ((pyShuffle_perm g.st _).mem_iff.mp hq)

theorem shuffleGroups_combine_perm (g : PositionGroups) (rnd : List Nat) :
    (combineGroups (shuffleGroups g rnd).1).Perm (combineGroups g) := by
  simp only [combineGroups, shuffleGroups]
  exact ((pyShuffle_perm g.gk rnd).append
    (((pyShuffle_perm g.df _).append
      (((pyShuffle_perm g.mid _).append (pyShuffle_perm g.st _))))))

/-! ### The target sizes -/

theorem targetSizes_natCast (n T : Nat) :
    targetSizes n (T : Int) = (List.range T).map
      (fun i => ((n / T + if i < n % T then 1 else 0 : Nat) : Int)) := by
  unfold targetSizes
  rw [Int.toNat_natCast]
  apply List.map_congr_left
  intro i hi
  rw [Int.fdiv_eq_ediv _ (Int.natCast_nonneg T), Int.fmod_eq_emod _ (Int.natCast_nonneg T)]
  rw [← Int.ofNat_ediv, ← Int.ofNat_emod]
  push_cast
  norm_cast

theorem targetSizes_length (n T : Nat) :
    (targetSizes n (T : Int)).length = T := by
  unfold targetSizes
  rw [List.length_map, List.length_range, Int.toNat_natCast]

theorem targetSizes_getD (n T i : Nat) (hi : i < T) :
    (targetSizes n (T : Int)).getD i 0
      = ((n / T + if i < n % T then 1 else 0 : Nat) : Int) := by
  rw [targetSizes_natCast]
  have hlen : i < ((List.range T).map
      (fun i => ((n / T + if i < n % T then 1 else 0 : Nat) : Int))).length := by
    rw [List.length_map, List.length_range]; exact hi
  rw [List.getD_eq_getElem _ _ hlen, List.getElem_map, List.getElem_range]

theorem targetSizes_getD_nonneg (n T : Nat) (i : Nat) :
    0 ≤ (targetSizes n (T : Int)).getD i 0 := by
  by_cases hi : i < T
  · rw [targetSizes_getD n T i hi]
    exact Int.natCast_nonneg _
  · rw [List.getD_eq_default]
    rw [targetSizes_length]
    omega

theorem sum_map_range_const (T b r : Nat) (h : T ≤ r) :
    ((List.range T).map (fun i => b + if i < r then 1 else 0)).sum = T * (b + 1) := by
  induction T with
  | zero => simp
  | succ T ih =>
    rw [List.range_succ, List.map_append, List.sum_append, ih (by omega)]
    have hT : T < r := by omega
    simp [hT]
    ring

theorem sum_map_range_ite (T b r : Nat) (h : r ≤ T) :
    ((List.range T).map (fun i => b + if i < r then 1 else 0)).sum = T * b + r := by
  induction T with
  | zero =>
    have : r = 0 := by omega
    simp [this]
  | succ T ih =>
    by_cases hr : r ≤ T
    · rw [List.range_succ, List.map_append, List.sum_append, ih hr]
      have hT : ¬(T < r) := by omega
      simp [hT]
      ring
    · have hrT : r = T + 1 := by omega
      rw [sum_map_range_const (T + 1) b r (by omega), hrT]
      ring

theorem targetSizes_sum (n T : Nat) (hT : 1 ≤ T) :
    (targetSizes n (T : Int)).sum = (n : Int) := by
  rw [targetSizes_natCast]
  have hmap : (List.range T).map
      (fun i => ((n / T + if i < n % T then 1 else 0 : Nat) : Int))
      = ((List.range T).map (fun i => n / T + if i < n % T then 1 else 0)).map
          (fun x : Nat => (x : Int)) := by
    rw [List.map_map]
    rfl
  rw [hmap, ← Nat.cast_list_sum]
  rw [sum_map_range_ite T (n / T) (n % T) (le_of_lt (Nat.mod_lt n hT))]
  rw [Nat.div_add_mod]

theorem list_sum_eq_finset_getD (l : List Int) :
    l.sum = ∑ i ∈ Finset.range l.length, l.getD i 0 := by
  induction l with
  | nil => simp
  | cons a t ih =>
    rw [List.sum_cons, ih, List.length_cons, Finset.sum_range_succ']
    simp only [List.getD_cons_succ, List.getD_cons_zero]
    ring

/-! ### The `min(..., key=...)` selection -/

theorem pyMinAux_spec (key : Nat → Int) :
    ∀ (xs : List Nat) (m : Nat), List.Pairwise (· < ·) (m :: xs) →
      pyMinAux key m xs ∈ m :: xs ∧
      (∀ y ∈ m :: xs, key (pyMinAux key m xs) ≤ key y) ∧
      (∀ y ∈ m :: xs, key y = key (pyMinAux key m xs) → pyMinAux key m xs ≤ y) := by
  intro xs
  induction xs with
  | nil =>
    intro m _
    refine ⟨List.mem_cons_self m [], ?_, ?_⟩
    · intro y hy
      rw [List.mem_singleton.mp hy]
      exact le_refl _
    · intro y hy _
      rw [List.mem_singleton.mp hy]
      exact le_refl _
  | cons y ys ih =>
    intro m hp
    rw [List.pairwise_cons] at hp
    obtain ⟨hm, hp1⟩ := hp
    have hy1 := (List.pairwise_cons.mp hp1).1
    have hys := (List.pairwise_cons.mp hp1).2
    have hmy : m < y := hm y (List.mem_cons_self y ys)
    by_cases hc : key y < key m
    · have hstep : pyMinAux key m (y :: ys) = pyMinAux key y ys := by
        show pyMinAux key (if key y < key m then y else m) ys = pyMinAux key y ys
        rw [if_pos hc]
      obtain ⟨hmem, hmin, htie⟩ := ih y hp1
      rw [hstep]
      have hry : key (pyMinAux key y ys) ≤ key y := hmin y (List.mem_cons_self y ys)
      refine ⟨List.mem_cons_of_mem m hmem, ?_, ?_⟩
      · intro z hz
        rcases List.mem_cons.mp hz with rfl | hz1
        · omega
        · exact hmin z hz1
      · intro z hz hkz
        rcases List.mem_cons.mp hz with rfl | hz1
        · omega
        · exact htie z hz1 hkz
    · have hstep : pyMinAux key m (y :: ys) = pyMinAux key m ys := by
        show pyMinAux key (if key y < key m then y else m) ys = pyMinAux key m ys
        rw [if_neg hc]
      have hp2 : List.Pairwise (· < ·) (m :: ys) := by
        rw [List.pairwise_cons]
        exact ⟨fun z hz => hm z (List.mem_cons_of_mem y hz), hys⟩
      obtain ⟨hmem, hmin, htie⟩ := ih m hp2
      rw [hstep]
      have hrm : key (pyMinAux key m ys) ≤ key m := hmin m (List.mem_cons_self m ys)
      refine ⟨?_, ?_, ?_⟩
      · rcases List.mem_cons.mp hmem with hh | hh
        · rw [hh]
          exact List.mem_cons_self m (y :: ys)
        · exact List.mem_cons_of_mem m (List.mem_cons_of_mem y hh)
      · intro z hz
        rcases List.mem_cons.mp hz with rfl | hz1
        · exact hrm
        · rcases List.mem_cons.mp hz1 with rfl | hz2
          · omega
          · exact hmin z (List.mem_cons_of_mem m hz2)
      · intro z hz hkz
        rcases List.mem_cons.mp hz with rfl | hz1
        · exact htie z (List.mem_cons_self z ys) hkz
        · rcases List.mem_cons.mp hz1 with rfl | hz2
          · have h1 : pyMinAux key m ys ≤ m := by
              apply htie m (List.mem_cons_self m ys)
              omega
            omega
          · exact htie z (List.mem_cons_of_mem m hz2) hkz

theorem pyMinBy_spec (key : Nat → Int) (l : List Nat)
    (hl : List.Pairwise (· < ·) l) (hx : l ≠ []) :
    ∃ m, pyMinBy key l = some m ∧ m ∈ l ∧
      (∀ y ∈ l, key m ≤ key y) ∧
      (∀ y ∈ l, key y = key m → m ≤ y) := by
  cases l with
  | nil => exact absurd rfl hx
  | cons x xs =>
    obtain ⟨hmem, hmin, htie⟩ := pyMinAux_spec key xs x hl
    exact ⟨pyMinAux key x xs, rfl, hmem, hmin, htie⟩

theorem mem_availableTeams (sizes targets : List Int) (T : Nat) (i : Nat) :
    i ∈ availableTeams sizes targets (T : Int)
      ↔ i < T ∧ sizes.getD i 0 < targets.getD i 0 := by
  unfold availableTeams
  rw [Int.toNat_natCast]
  simp [List.mem_filter, List.mem_range]

theorem availableTeams_pairwise (sizes targets : List Int) (numTeams : Int) :
    List.Pairwise (· < ·) (availableTeams sizes targets numTeams) :=
  (List.pairwise_lt_range _).filter _

/-! ### The `teams` association list -/

theorem teamList_appendTeam_self (ts : Teams) (k : Nat) (p : Player) :
    teamList (appendTeam ts k p) k = teamList ts k ++ [p] := by
  induction ts with
  | nil => simp [appendTeam, teamList]
  | cons kv rest ih =>
    obtain ⟨k1, l⟩ := kv
    by_cases h : k1 = k
    · simp [appendTeam, teamList, h]
    · simp [appendTeam, teamList, h, ih]

theorem teamList_appendTeam_ne (ts : Teams) (k k1 : Nat) (p : Player) (h : k1 ≠ k) :
    teamList (appendTeam ts k p) k1 = teamList ts k1 := by
  induction ts with
  | nil => simp [appendTeam, teamList, Ne.symm h]
  | cons kv rest ih =>
    obtain ⟨k2, l⟩ := kv
    by_cases h2 : k2 = k
    · subst h2
      simp [appendTeam, teamList, Ne.symm h]
    · by_cases h3 : k2 = k1 <;> simp [appendTeam, teamList, h2, h3, h, ih]

theorem allAssigned_appendTeam (ts : Teams) (k : Nat) (p : Player) :
    (allAssigned (appendTeam ts k p)).Perm (allAssigned ts ++ [p]) := by
  induction ts with
  | nil => simp [appendTeam, allAssigned]
  | cons kv rest ih =>
    obtain ⟨k1, l⟩ := kv
    by_cases h : k1 = k
    · simp only [appendTeam, if_pos h, allAssigned, List.map_cons, List.flatten_cons]
      apply perm_of_coe_eq
      simp only [← Multiset.coe_add, ← Multiset.coe_singleton]
      abel
    · simp only [appendTeam, if_neg h, allAssigned, List.map_cons, List.flatten_cons]
      refine (ih.append_left l).trans ?_
      rw [List.append_assoc]
      exact List.Perm.refl _

theorem mem_keysOf_appendTeam (ts : Teams) (k : Nat) (p : Player) (k1 : Nat) :
    k1 ∈ keysOf (appendTeam ts k p) ↔ k1 ∈ keysOf ts ∨ k1 = k := by
  induction ts with
  | nil => simp [appendTeam, keysOf]
  | cons kv rest ih =>
    obtain ⟨k2, l⟩ := kv
    by_cases h : k2 = k
    · rw [appendTeam, if_pos h]
      subst h
      simp only [keysOf, List.map_cons, List.mem_cons]
      tauto
    · rw [appendTeam, if_neg h]
      simp only [keysOf, List.map_cons, List.mem_cons]
      rw [show List.map Prod.fst (appendTeam rest k p) = keysOf (appendTeam rest k p) from rfl,
        ih, show List.map Prod.fst rest = keysOf rest from rfl]
      tauto

theorem appendTeam_keyProp (Q : Nat → Prop) (ts : Teams) (k : Nat) (p : Player)
    (hts : ∀ kv ∈ ts, Q kv.1 ∧ kv.2 ≠ []) (hk : Q k) :
    ∀ kv ∈ appendTeam ts k p, Q kv.1 ∧ kv.2 ≠ [] := by
  induction ts with
  | nil =>
    intro kv hkv
    simp only [appendTeam, List.mem_singleton] at hkv
    rw [hkv]
    exact ⟨hk, by simp⟩
  | cons kv0 rest ih =>
    obtain ⟨k1, l⟩ := kv0
    intro kv hkv
    by_cases h : k1 = k
    · rw [appendTeam, if_pos h] at hkv
      rcases List.mem_cons.mp hkv with rfl | hkv1
      · refine ⟨(hts (k1, l) (List.mem_cons_self _ _)).1, by simp⟩
      · exact hts kv (List.mem_cons_of_mem _ hkv1)
    · rw [appendTeam, if_neg h] at hkv
      rcases List.mem_cons.mp hkv with rfl | hkv1
      · exact hts (k1, l) (List.mem_cons_self _ _)
      · exact ih (fun kv2 hkv2 => hts kv2 (List.mem_cons_of_mem _ hkv2)) kv hkv1

theorem teamList_eq_nil_of_not_mem (ts : Teams) (k : Nat) (h : k ∉ keysOf ts) :
    teamList ts k = [] := by
  induction ts with
  | nil => rfl
  | cons kv rest ih =>
    obtain ⟨k1, l⟩ := kv
    simp only [keysOf, List.map_cons, List.mem_cons] at h
    push_neg at h
    rw [teamList, if_neg (fun hh => h.1 hh.symm)]
    exact ih h.2

theorem teamList_ne_nil_of_mem (ts : Teams) (k : Nat)
    (hvals : ∀ kv ∈ ts, kv.2 ≠ []) (h : k ∈ keysOf ts) :
    teamList ts k ≠ [] := by
  induction ts with
  | nil => cases h
  | cons kv rest ih =>
    obtain ⟨k1, l⟩ := kv
    by_cases h1 : k1 = k
    · rw [teamList, if_pos h1]
      exact hvals (k1, l) (List.mem_cons_self _ _)
    · rw [teamList, if_neg h1]
      simp only [keysOf, List.map_cons, List.mem_cons] at h
      rcases h with rfl | h2
      · exact absurd rfl h1
      · exact ih (fun kv2 hkv2 => hvals kv2 (List.mem_cons_of_mem _ hkv2)) h2

/-! ### Size bookkeeping -/

theorem getD_set_self (l : List Int) (i : Nat) (a : Int) (h : i < l.length) :
    (l.set i a).getD i 0 = a := by
  rw [List.getD_eq_getElem?_getD, List.getElem?_set_self h]
  rfl

theorem getD_set_ne (l : List Int) (i j : Nat) (a : Int) (h : i ≠ j) :
    (l.set i a).getD j 0 = l.getD j 0 := by
  rw [List.getD_eq_getElem?_getD, List.getElem?_set_ne h, ← List.getD_eq_getElem?_getD]

theorem sum_set_add_one (l : List Int) (i : Nat) (h : i < l.length) :
    (l.set i (l.getD i 0 + 1)).sum = l.sum + 1 := by
  rw [List.set_eq_take_cons_drop _ h, List.sum_append, List.sum_cons]
  conv_rhs =>
    rw [← List.take_append_drop i l, List.sum_append, List.drop_eq_getElem_cons h,
      List.sum_cons]
  rw [List.getD_eq_getElem l 0 h]
  ring

theorem getD_replicate_zero (T i : Nat) : (List.replicate T (0 : Int)).getD i 0 = 0 := by
  by_cases h : i < T
  · rw [List.getD_eq_getElem?_getD, List.getElem?_replicate]
    simp [h]
  · rw [List.getD_eq_default]
    rw [List.length_replicate]
    omega

theorem sizes_eq_targets_of_sum_eq (sizes targets : List Int) (T : Nat)
    (hs : sizes.length = T) (ht : targets.length = T)
    (hb : ∀ i, i < T → sizes.getD i 0 ≤ targets.getD i 0)
    (hsum : sizes.sum = targets.sum) :
    ∀ i, i < T → sizes.getD i 0 = targets.getD i 0 := by
  have h1 := list_sum_eq_finset_getD sizes
  have h2 := list_sum_eq_finset_getD targets
  rw [hs] at h1
  rw [ht] at h2
  intro i hi
  refine (Finset.sum_eq_sum_iff_of_le
    (fun j hj => hb j (Finset.mem_range.mp hj))).mp ?_ i (Finset.mem_range.mpr hi)
  rw [← h1, ← h2, hsum]

theorem exists_lt_target (sizes targets : List Int) (T : Nat)
    (hs : sizes.length = T) (ht : targets.length = T)
    (hlt : sizes.sum < targets.sum) :
    ∃ i, i < T ∧ sizes.getD i 0 < targets.getD i 0 := by
  by_contra hno
  push_neg at hno
  have hle : targets.sum ≤ sizes.sum := by
    rw [list_sum_eq_finset_getD sizes, list_sum_eq_finset_getD targets, hs, ht]
    exact Finset.sum_le_sum (fun j hj => hno j (Finset.mem_range.mp hj))
  omega

/-! ### The distribution walk -/

theorem allocStep_inv (T : Nat) (targets : List Int) (ht : targets.length = T)
    (consumed : List Player) (s : AllocState) (p : Player)
    (inv : WalkInv targets T consumed s)
    (hlt : s.sizes.sum < targets.sum) :
    ∃ s1, allocStep (T : Int) targets s p = .ok s1 ∧
      WalkInv targets T (consumed ++ [p]) s1 := by
  obtain ⟨hlen, hnn, hbound, hsum, hteamlen, hkeys, hperm, hsub⟩ := inv
  obtain ⟨i0, hi0T, hi0⟩ := exists_lt_target s.sizes targets T hlen ht hlt
  have havail : availableTeams s.sizes targets (T : Int) ≠ [] := by
    intro hemp
    have hi0m : i0 ∈ availableTeams s.sizes targets (T : Int) :=
      (mem_availableTeams _ _ _ _).mpr ⟨hi0T, hi0⟩
    rw [hemp] at hi0m
    cases hi0m
  obtain ⟨m, hmby, hmmem, hmmin, hmtie⟩ :=
    pyMinBy_spec (fun i => s.sizes.getD i 0) (availableTeams s.sizes targets (T : Int))
      (availableTeams_pairwise _ _ _) havail
  obtain ⟨hmT, hmlt⟩ := (mem_availableTeams _ _ _ _).mp hmmem
  have hmlen : m < s.sizes.length := by omega
  refine ⟨⟨appendTeam s.teams (m + 1) p, s.sizes.set m (s.sizes.getD m 0 + 1)⟩, ?_, ?_⟩
  · unfold allocStep
    rw [hmby]
  · refine ⟨?_, ?_, ?_, ?_, ?_, ?_, ?_, ?_⟩
    · rw [List.length_set]
      exact hlen
    · intro i
      by_cases hi : m = i
      · subst hi
        rw [getD_set_self _ _ _ hmlen]
        have := hnn m
        omega
      · rw [getD_set_ne _ _ _ _ hi]
        exact hnn i
    · intro i hiT
      by_cases hi : m = i
      · subst hi
        rw [getD_set_self _ _ _ hmlen]
        omega
      · rw [getD_set_ne _ _ _ _ hi]
        exact hbound i hiT
    · rw [sum_set_add_one _ _ hmlen, hsum]
      simp
    · intro i hiT
      by_cases hi : m = i
      · subst hi
        rw [teamList_appendTeam_self, getD_set_self _ _ _ hmlen,
          List.length_append, List.length_singleton]
        push_cast
        rw [hteamlen m hiT]
      · rw [teamList_appendTeam_ne _ _ _ _ (by omega), getD_set_ne _ _ _ _ hi]
        exact hteamlen i hiT
    · intro kv hkv
      have hres := appendTeam_keyProp (fun a => 1 ≤ a ∧ a ≤ T) s.teams (m + 1) p
        (fun kv2 hkv2 => ⟨⟨(hkeys kv2 hkv2).1, (hkeys kv2 hkv2).2.1⟩, (hkeys kv2 hkv2).2.2⟩)
        ⟨by omega, by omega⟩ kv hkv
      exact ⟨hres.1.1, hres.1.2, hres.2⟩
    · exact (allAssigned_appendTeam s.teams (m + 1) p).trans (hperm.append_right [p])
    · intro k
      by_cases hk : k = m + 1
      · subst hk
        rw [teamList_appendTeam_self]
        exact (hsub (m + 1)).append (List.Sublist.refl [p])
      · rw [teamList_appendTeam_ne _ _ _ _ hk]
        exact (hsub k).trans (List.sublist_append_left consumed [p])

theorem allocWalk_inv (T : Nat) (targets : List Int) (ht : targets.length = T) :
    ∀ (rest consumed : List Player) (s : AllocState),
      WalkInv targets T consumed s →
      s.sizes.sum + rest.length = targets.sum →
      ∃ s1, allocWalk (T : Int) targets s rest = .ok s1 ∧
        WalkInv targets T (consumed ++ rest) s1 := by
  intro rest
  induction rest with
  | nil =>
    intro consumed s inv _
    exact ⟨s, rfl, by simpa using inv⟩
  | cons p rest ih =>
    intro consumed s inv hsum
    have hlt : s.sizes.sum < targets.sum := by
      rw [List.length_cons] at hsum
      push_cast at hsum
      omega
    obtain ⟨s1, hstep, inv1⟩ := allocStep_inv T targets ht consumed s p inv hlt
    have hsum1 : s1.sizes.sum + rest.length = targets.sum := by
      have h1 := inv1.hsum
      have h2 := inv.hsum
      rw [List.length_append, List.length_singleton] at h1
      rw [List.length_cons] at hsum
      push_cast at h1 h2 hsum ⊢
      omega
    obtain ⟨s2, hwalk, inv2⟩ := ih (consumed ++ [p]) s1 inv1 hsum1
    refine ⟨s2, ?_, ?_⟩
    · unfold allocWalk
      rw [hstep]
      exact hwalk
    · rw [List.append_assoc, List.singleton_append] at inv2
      exact inv2

theorem walkInv_init (T : Nat) (targets : List Int) (ht : targets.length = T)
    (htnn : ∀ i, 0 ≤ targets.getD i 0) :
    WalkInv targets T [] ⟨[], List.replicate T 0⟩ := by
  refine ⟨?_, ?_, ?_, ?_, ?_, ?_, ?_, ?_⟩
  · exact List.length_replicate T 0
  · intro i
    rw [getD_replicate_zero]
  · intro i _
    rw [getD_replicate_zero]
    exact htnn i
  · simp
  · intro i _
    simp [teamList, getD_replicate_zero]
  · intro kv hkv
    cases hkv
  · exact List.Perm.refl _
  · intro k
    exact List.nil_sublist []

/-! ### Computation lemmas for `generate_teams` -/

theorem generate_teams_eq_ok (players : List Player) (nt : Int) (rnd : List Nat)
    (groups : PositionGroups)
    (hg : groupByPosition (pyShuffle players rnd).1 emptyGroups = .ok groups)
    (hnt : nt ≠ 0) (s1 : AllocState)
    (hw : allocWalk nt (targetSizes (pyShuffle players rnd).1.length nt)
        ⟨[], List.replicate nt.toNat 0⟩
        (combineGroups (shuffleGroups groups (pyShuffle players rnd).2).1) = .ok s1) :
    generate_teams players nt rnd = .ok ((pyShuffle players rnd).1, s1.teams) := by
  simp only [generate_teams, hg, if_neg hnt, hw]

theorem generate_teams_eq_groupError (players : List Player) (nt : Int) (rnd : List Nat)
    (e : PyError)
    (hg : groupByPosition (pyShuffle players rnd).1 emptyGroups = .error e) :
    generate_teams players nt rnd = .error e := by
  simp only [generate_teams, hg]

theorem generate_teams_eq_zeroDiv (players : List Player) (rnd : List Nat)
    (groups : PositionGroups)
    (hg : groupByPosition (pyShuffle players rnd).1 emptyGroups = .ok groups) :
    generate_teams players 0 rnd = .error .zeroDivisionError := by
  simp only [generate_teams, hg]
  simp

theorem generate_teams_eq_walkError (players : List Player) (nt : Int) (rnd : List Nat)
    (groups : PositionGroups)
    (hg : groupByPosition (pyShuffle players rnd).1 emptyGroups = .ok groups)
    (hnt : nt ≠ 0) (e : PyError)
    (hw : allocWalk nt (targetSizes (pyShuffle players rnd).1.length nt)
        ⟨[], List.replicate nt.toNat 0⟩
        (combineGroups (shuffleGroups groups (pyShuffle players rnd).2).1) = .error e) :
    generate_teams players nt rnd = .error e := by
  simp only [generate_teams, hg, if_neg hnt, hw]

/-! ### Position order of `combined` -/

theorem combineGroups_sorted (g : PositionGroups) (hg : groupsPos g) :
    (combineGroups g).Pairwise (fun p q => posRank p.2 ≤ posRank q.2) := by
  obtain ⟨h1, h2, h3, h4⟩ := hg
  have hGK : posRank "GK" = 0 := rfl
  have hDEF : posRank "DEF" = 1 := rfl
  have hMID : posRank "MID" = 2 := rfl
  have hST : posRank "ST" = 3 := rfl
  unfold combineGroups
  rw [List.pairwise_append]
  refine ⟨?_, ?_, ?_⟩
  · apply List.pairwise_of_forall_mem_list
    intro a ha b hb
    rw [h1 a ha, h1 b hb]
  · rw [List.pairwise_append]
    refine ⟨?_, ?_, ?_⟩
    · apply List.pairwise_of_forall_mem_list
      intro a ha b hb
      rw [h2 a ha, h2 b hb]
    · rw [List.pairwise_append]
      refine ⟨?_, ?_, ?_⟩
      · apply List.pairwise_of_forall_mem_list
        intro a ha b hb
        rw [h3 a ha, h3 b hb]
      · apply List.pairwise_of_forall_mem_list
        intro a ha b hb
        rw [h4 a ha, h4 b hb]
      · intro a ha b hb
        rw [h3 a ha, h4 b hb]
        omega
    · intro a ha b hb
      rcases List.mem_append.mp hb with hb1 | hb1
      · rw [h2 a ha, h3 b hb1]
        omega
      · rw [h2 a ha, h4 b hb1]
        omega
  · intro a ha b hb
    rw [h1 a ha]
    omega

/-! ### Main characterisation of a successful run -/

theorem groupsPos_empty : groupsPos emptyGroups := by
  refine ⟨?_, ?_, ?_, ?_⟩ <;> intro p hp <;> cases hp

theorem generate_teams_spec (players : List Player) (T : Nat) (rnd : List Nat)
    (hT : 1 ≤ T) (hval : validRoster players) :
    ∃ (r : List Player) (ts : Teams),
      generate_teams players (T : Int) rnd = .ok (r, ts) ∧
      r.Perm players ∧
      (allAssigned ts).Perm players ∧
      (∀ i, i < T → (teamList ts (i + 1)).length
          = players.length / T + if i < players.length % T then 1 else 0) ∧
      (∀ k, k ∈ keysOf ts ↔ teamList ts k ≠ []) ∧
      (∀ k, T < k → teamList ts k = []) ∧
      teamList ts 0 = [] ∧
      (∀ k, (teamList ts k).Pairwise (fun p q => posRank p.2 ≤ posRank q.2)) := by
  have hshperm := pyShuffle_perm players rnd
  have hshval : ∀ p ∈ (pyShuffle players rnd).1, validPos p = true :=
    fun p hp => hval p (hshperm.mem_iff.mp hp)
  obtain ⟨groups, hg⟩ := groupByPosition_ok_of_valid (pyShuffle players rnd).1 emptyGroups hshval
  have hgperm : (combineGroups groups).Perm (pyShuffle players rnd).1 := by
    have hgp := groupByPosition_ok_combine (pyShuffle players rnd).1 emptyGroups groups hg
    simpa [emptyGroups, combineGroups] using hgp
  have hgpos : groupsPos groups :=
    groupByPosition_groupsPos _ emptyGroups groups groupsPos_empty hg
  set sgroups := (shuffleGroups groups (pyShuffle players rnd).2).1 with hsg
  have hsgpos : groupsPos sgroups := shuffleGroups_groupsPos _ _ hgpos
  have hcombperm : (combineGroups sgroups).Perm players :=
    ((shuffleGroups_combine_perm groups _).trans hgperm).trans hshperm
  have hsorted := combineGroups_sorted sgroups hsgpos
  have hn : (pyShuffle players rnd).1.length = players.length := pyShuffle_length players rnd
  have hclen : (combineGroups sgroups).length = players.length := hcombperm.length_eq
  have htT : (targetSizes players.length (T : Int)).length = T := targetSizes_length _ _
  have htnn := targetSizes_getD_nonneg players.length T
  have hTsum : (targetSizes players.length (T : Int)).sum = (players.length : Int) :=
    targetSizes_sum _ _ hT
  have hinit := walkInv_init T (targetSizes players.length (T : Int)) htT htnn
  have hinitsum : (⟨[], List.replicate T 0⟩ : AllocState).sizes.sum
      + ((combineGroups sgroups).length : Int)
      = (targetSizes players.length (T : Int)).sum := by
    show (List.replicate T (0 : Int)).sum + _ = _
    rw [List.sum_replicate, hclen, hTsum]
    simp
  obtain ⟨s1, hwalk, inv⟩ := allocWalk_inv T _ htT (combineGroups sgroups) []
    ⟨[], List.replicate T 0⟩ hinit hinitsum
  have hntz : (T : Int) ≠ 0 := Int.natCast_ne_zero.mpr (by omega)
  have heq : generate_teams players (T : Int) rnd = .ok ((pyShuffle players rnd).1, s1.teams) := by
    apply generate_teams_eq_ok players (T : Int) rnd groups hg hntz s1
    rw [hn, Int.toNat_natCast]
    exact hwalk
  rw [List.nil_append] at inv
  have hsizes_eq := sizes_eq_targets_of_sum_eq s1.sizes _ T inv.hlen htT inv.hbound
    (by rw [inv.hsum, hclen, hTsum])
  refine ⟨(pyShuffle players rnd).1, s1.teams, heq, hshperm, ?_, ?_, ?_, ?_, ?_, ?_⟩
  · exact inv.hperm.trans hcombperm
  · intro i hi
    have h1 := inv.hteamlen i hi
    rw [hsizes_eq i hi, targetSizes_getD players.length T i hi] at h1
    exact_mod_cast h1
  · intro k
    constructor
    · intro hk
      exact teamList_ne_nil_of_mem s1.teams k (fun kv hkv => (inv.hkeys kv hkv).2.2) hk
    · intro hne
      by_contra hk
      exact hne (teamList_eq_nil_of_not_mem s1.teams k hk)
  · intro k hk
    apply teamList_eq_nil_of_not_mem
    intro hmem
    obtain ⟨kv, hkv, hfst⟩ := List.mem_map.mp hmem
    have hle := (inv.hkeys kv hkv).2.1
    omega
  · apply teamList_eq_nil_of_not_mem
    intro hmem
    obtain ⟨kv, hkv, hfst⟩ := List.mem_map.mp hmem
    have hge := (inv.hkeys kv hkv).1
    omega
  · intro k
    exact List.Pairwise.sublist (inv.hsub k) hsorted

/-! ### Remaining shared helpers -/

theorem generate_teams_empty (nt : Int) (rnd : List Nat) (hnt : nt ≠ 0) :
    generate_teams [] nt rnd = .ok ([], []) := by
  unfold generate_teams pyShuffle
  simp only [List.length_nil, Nat.zero_sub, fisherYatesAux, groupByPosition,
    shuffleGroups, emptyGroups, combineGroups, List.append_nil, allocWalk]
  rw [if_neg hnt]

theorem generate_teams_ok_roster (players : List Player) (nt : Int) (rnd : List Nat)
    (r : List Player) (ts : Teams)
    (h : generate_teams players nt rnd = .ok (r, ts)) :
    r = (pyShuffle players rnd).1 := by
  simp only [generate_teams] at h
  split at h
  · cases h
  · split at h
    · cases h
    · split at h
      · cases h
      · injection h with h1
        exact (congrArg Prod.fst h1).symm

theorem allocWalk_neg_error (nt : Int) (hnt : nt < 0) (targets : List Int)
    (s : AllocState) (p : Player) (rest : List Player) :
    allocWalk nt targets s (p :: rest) = .error .valueError := by
  have havail : availableTeams s.sizes targets nt = [] := by
    unfold availableTeams
    rw [Int.toNat_of_nonpos (le_of_lt hnt)]
    rfl
  have hstep : allocStep nt targets s p = .error .valueError := by
    unfold allocStep
    rw [havail]
    rfl
  unfold allocWalk
  rw [hstep]

/-! ### The claims -/

/-- Claim C1: for every roster (all positions valid, per the data model) and every
team count T ≥ 1, `generate_teams` succeeds and the multiset union of all teams'
player lists equals the multiset of the input roster — no player duplicated or
dropped. -/
theorem C1_partition (players : List Player) (T : Nat) (rnd : List Nat)
    (hT : 1 ≤ T) (hval : validRoster players) :
    ∃ (r : List Player) (ts : Teams),
      generate_teams players (T : Int) rnd = .ok (r, ts) ∧
      (allAssigned ts).Perm players := by
  obtain ⟨r, ts, heq, _, hperm, _⟩ := generate_teams_spec players T rnd hT hval
  exact ⟨r, ts, heq, hperm⟩

/-- Claim C1, witness at a concrete input. -/
theorem C1_partition_witness :
    1 ≤ 2 ∧ validRoster [("A", "GK"), ("B", "DEF"), ("C", "ST")] ∧
    ∃ (r : List Player) (ts : Teams),
      generate_teams [("A", "GK"), ("B", "DEF"), ("C", "ST")] ((2 : Nat) : Int) [0, 1, 0]
        = .ok (r, ts) ∧
      (allAssigned ts).Perm [("A", "GK"), ("B", "DEF"), ("C", "ST")] :=
  ⟨by decide, by decide,
    C1_partition [("A", "GK"), ("B", "DEF"), ("C", "ST")] 2 [0, 1, 0]
      (by decide) (by decide)⟩

/-- Claim C2 as stated is false: with the empty roster and T = 3 the code
returns an empty `defaultdict` — no keys at all — rather than
`{1: [], 2: [], 3: []}` with three keys. -/
theorem C2_counterexample :
    generate_teams [] ((3 : Nat) : Int) [] = .ok ([], []) ∧
    keysOf (resultTeams (generate_teams [] ((3 : Nat) : Int) [])) ≠ [1, 2, 3] := by
  decide

/-- Claim C2, amended: the keys of the returned mapping are exactly the teams
that received at least one player (a key exists iff its list is non-empty);
for the empty roster the run succeeds and returns the empty mapping. -/
theorem C2_amended_keys (players : List Player) (T : Nat) (rnd : List Nat)
    (hT : 1 ≤ T) (hval : validRoster players) :
    ∃ (r : List Player) (ts : Teams),
      generate_teams players (T : Int) rnd = .ok (r, ts) ∧
      (∀ k, k ∈ keysOf ts ↔ teamList ts k ≠ []) ∧
      (players = [] → (r, ts) = ([], [])) := by
  obtain ⟨r, ts, heq, _, _, _, hkeys, _, _, _⟩ := generate_teams_spec players T rnd hT hval
  refine ⟨r, ts, heq, hkeys, ?_⟩
  intro hpe
  subst hpe
  have hempty := generate_teams_empty (T : Int) rnd (Int.natCast_ne_zero.mpr (by omega))
  rw [heq] at hempty
  exact Except.ok.inj hempty

/-- Claim C2 amended, witness at a concrete input. -/
theorem C2_amended_keys_witness :
    1 ≤ 3 ∧ validRoster [] ∧
    ∃ (r : List Player) (ts : Teams),
      generate_teams [] ((3 : Nat) : Int) [] = .ok (r, ts) ∧
      (∀ k, k ∈ keysOf ts ↔ teamList ts k ≠ []) ∧
      (([] : List Player) = [] → (r, ts) = ([], [])) :=
  ⟨by decide, by decide, C2_amended_keys [] 3 [] (by decide) (by decide)⟩

/-- Claim C3: with base = len // T and remainder = len % T, the final size of
team i+1 (0-indexed i < T) is base + 1 for the first `remainder` teams and
base for the rest (an absent key reads as the empty list, matching
`defaultdict`). -/
theorem C3_team_sizes (players : List Player) (T : Nat) (rnd : List Nat)
    (hT : 1 ≤ T) (hval : validRoster players) :
    ∃ (r : List Player) (ts : Teams),
      generate_teams players (T : Int) rnd = .ok (r, ts) ∧
      ∀ i, i < T → (teamList ts (i + 1)).length
        = players.length / T + if i < players.length % T then 1 else 0 := by
  obtain ⟨r, ts, heq, _, _, hsizes, _⟩ := generate_teams_spec players T rnd hT hval
  exact ⟨r, ts, heq, hsizes⟩

/-- Claim C3, witness at a concrete input (5 players, 2 teams: sizes 3 and 2). -/
theorem C3_team_sizes_witness :
    1 ≤ 2 ∧
    validRoster [("A", "GK"), ("B", "DEF"), ("C", "DEF"), ("D", "MID"), ("E", "ST")] ∧
    ∃ (r : List Player) (ts : Teams),
      generate_teams [("A", "GK"), ("B", "DEF"), ("C", "DEF"), ("D", "MID"), ("E", "ST")]
        ((2 : Nat) : Int) [0, 0, 0, 0, 0, 0] = .ok (r, ts) ∧
      ∀ i, i < 2 → (teamList ts (i + 1)).length
        = 5 / 2 + if i < 5 % 2 then 1 else 0 :=
  ⟨by decide, by decide,
    C3_team_sizes [("A", "GK"), ("B", "DEF"), ("C", "DEF"), ("D", "MID"), ("E", "ST")]
      2 [0, 0, 0, 0, 0, 0] (by decide) (by decide)⟩

/-- Claim C4: each successful step of the distribution walk appends the player
to team m+1 where m is drawn from `available_teams` (teams below their target
size), has the fewest players currently assigned among the available teams,
and is the lowest-numbered team among ties. -/
theorem C4_assignment_rule (numTeams : Int) (targets : List Int) (s : AllocState)
    (p : Player) (s1 : AllocState)
    (h : allocStep numTeams targets s p = .ok s1) :
    ∃ m, s1 = ⟨appendTeam s.teams (m + 1) p, s.sizes.set m (s.sizes.getD m 0 + 1)⟩ ∧
      m ∈ availableTeams s.sizes targets numTeams ∧
      (∀ j ∈ availableTeams s.sizes targets numTeams,
        s.sizes.getD m 0 ≤ s.sizes.getD j 0) ∧
      (∀ j ∈ availableTeams s.sizes targets numTeams,
        s.sizes.getD j 0 = s.sizes.getD m 0 → m ≤ j) := by
  unfold allocStep at h
  cases hmin : pyMinBy (fun i => s.sizes.getD i 0)
      (availableTeams s.sizes targets numTeams) with
  | none =>
    rw [hmin] at h
    cases h
  | some m =>
    rw [hmin] at h
    have hne : availableTeams s.sizes targets numTeams ≠ [] := by
      intro he
      rw [he] at hmin
      cases hmin
    obtain ⟨m2, hm2, hmem, hmn, htie⟩ := pyMinBy_spec (fun i => s.sizes.getD i 0)
      (availableTeams s.sizes targets numTeams) (availableTeams_pairwise _ _ _) hne
    rw [hmin] at hm2
    cases hm2
    cases h
    exact ⟨m, rfl, hmem, hmn, fun j hj hje => htie j hj hje⟩

/-- Claim C4, witness at a concrete input. -/
theorem C4_assignment_rule_witness :
    allocStep 2 [1, 1] ⟨[], [0, 0]⟩ ("A", "GK") = .ok ⟨[(1, [("A", "GK")])], [1, 0]⟩ ∧
    ∃ m, (⟨[(1, [("A", "GK")])], [1, 0]⟩ : AllocState)
        = ⟨appendTeam ([] : Teams) (m + 1) ("A", "GK"),
            ([0, 0] : List Int).set m (([0, 0] : List Int).getD m 0 + 1)⟩ ∧
      m ∈ availableTeams [0, 0] [1, 1] 2 ∧
      (∀ j ∈ availableTeams [0, 0] [1, 1] 2,
        ([0, 0] : List Int).getD m 0 ≤ ([0, 0] : List Int).getD j 0) ∧
      (∀ j ∈ availableTeams [0, 0] [1, 1] 2,
        ([0, 0] : List Int).getD j 0 = ([0, 0] : List Int).getD m 0 → m ≤ j) :=
  ⟨by decide,
    C4_assignment_rule 2 [1, 1] ⟨[], [0, 0]⟩ ("A", "GK")
      ⟨[(1, [("A", "GK")])], [1, 0]⟩ (by decide)⟩

/-- Claim C5 as stated is false: `random.shuffle(players)` reorders the
caller's list in place; with draw stream [0, 0] the two-player roster comes
back reversed. -/
theorem C5_counterexample :
    generate_teams [("A", "GK"), ("B", "GK")] ((1 : Nat) : Int) [0, 0]
      = .ok ([("B", "GK"), ("A", "GK")], [(1, [("A", "GK"), ("B", "GK")])]) ∧
    resultRoster (generate_teams [("A", "GK"), ("B", "GK")] ((1 : Nat) : Int) [0, 0])
      ≠ [("A", "GK"), ("B", "GK")] := by
  decide

/-- Claim C5, amended: the call preserves the length and multiset membership of
the caller's roster (the final list is a permutation of the input), but it may
reorder the caller's list in place — no defensive copy is taken. -/
theorem C5_amended_mutation (players : List Player) (nt : Int) (rnd : List Nat)
    (r : List Player) (ts : Teams)
    (h : generate_teams players nt rnd = .ok (r, ts)) :
    r.Perm players := by
  rw [generate_teams_ok_roster players nt rnd r ts h]
  exact pyShuffle_perm players rnd

/-- Claim C5 amended, witness at a concrete input. -/
theorem C5_amended_mutation_witness :
    List.Perm [("B", "GK"), ("A", "GK")] [("A", "GK"), ("B", "GK")] :=
  C5_amended_mutation [("A", "GK"), ("B", "GK")] 1 [0, 0]
    [("B", "GK"), ("A", "GK")] [(1, [("A", "GK"), ("B", "GK")])] (by decide)

/-- Claim C6 as stated is false: a non-positive team count is not rejected.
With the empty roster and team_count = -1, `generate_teams` raises no error at
all and returns the empty mapping. -/
theorem C6_counterexample :
    generate_teams [] (-1 : Int) [] = .ok ([], []) := by
  decide

/-- Claim C6, amended: the code performs no team-count validation. With
team_count = 0 the size computation raises ZeroDivisionError; with a negative
team_count and a non-empty roster the first walk step finds no available team
and raises ValueError; with a negative team_count and an empty roster no error
occurs and the empty mapping is returned. -/
theorem C6_amended_nonpositive (players : List Player) (rnd : List Nat)
    (hval : validRoster players) :
    generate_teams players 0 rnd = .error .zeroDivisionError ∧
    (∀ nt : Int, nt < 0 → players ≠ [] →
      generate_teams players nt rnd = .error .valueError) ∧
    (∀ nt : Int, nt < 0 → players = [] →
      generate_teams players nt rnd = .ok ([], [])) := by
  have hshperm := pyShuffle_perm players rnd
  have hshval : ∀ p ∈ (pyShuffle players rnd).1, validPos p = true :=
    fun p hp => hval p (hshperm.mem_iff.mp hp)
  obtain ⟨groups, hg⟩ := groupByPosition_ok_of_valid _ emptyGroups hshval
  refine ⟨generate_teams_eq_zeroDiv players rnd groups hg, ?_, ?_⟩
  · intro nt hnt hne
    have hgperm : (combineGroups groups).Perm (pyShuffle players rnd).1 := by
      have hx := groupByPosition_ok_combine (pyShuffle players rnd).1 emptyGroups groups hg
      simpa [emptyGroups, combineGroups] using hx
    have hcombperm :
        (combineGroups (shuffleGroups groups (pyShuffle players rnd).2).1).Perm players :=
      ((shuffleGroups_combine_perm groups _).trans hgperm).trans hshperm
    cases hc : combineGroups (shuffleGroups groups (pyShuffle players rnd).2).1 with
    | nil =>
      exfalso
      apply hne
      have hp2 := hcombperm.symm
      rw [hc] at hp2
      exact hp2.eq_nil
    | cons p rest =>
      apply generate_teams_eq_walkError players nt rnd groups hg (by omega) .valueError
      rw [hc]
      exact allocWalk_neg_error nt hnt _ _ p rest
  · intro nt hnt hpe
    subst hpe
    exact generate_teams_empty nt rnd (by omega)

/-- Claim C6 amended, witness at a concrete input. -/
theorem C6_amended_nonpositive_witness :
    validRoster [("A", "GK")] ∧
    (generate_teams [("A", "GK")] 0 [] = .error .zeroDivisionError ∧
      (∀ nt : Int, nt < 0 → [("A", "GK")] ≠ ([] : List Player) →
        generate_teams [("A", "GK")] nt [] = .error .valueError) ∧
      (∀ nt : Int, nt < 0 → [("A", "GK")] = ([] : List Player) →
        generate_teams [("A", "GK")] nt [] = .ok ([], []))) :=
  ⟨by decide, C6_amended_nonpositive [("A", "GK")] [] (by decide)⟩

/-- Claim C7: `generate_teams` is deterministic under fixed randomness — two
runs with equal rosters, equal team counts and identical draw streams produce
identical results (the embedding makes the random source an explicit input). -/
theorem C7_deterministic (p1 p2 : List Player) (t1 t2 : Int) (r1 r2 : List Nat)
    (hp : p1 = p2) (ht : t1 = t2) (hr : r1 = r2) :
    generate_teams p1 t1 r1 = generate_teams p2 t2 r2 := by
  rw [hp, ht, hr]

/-- Claim C7, witness at a concrete input. -/
theorem C7_deterministic_witness :
    generate_teams [("A", "GK")] 2 [0] = generate_teams [("A", "GK")] 2 [0] :=
  C7_deterministic [("A", "GK")] [("A", "GK")] 2 2 [0] [0] rfl rfl rfl

/-- Claim C8: in every mapping returned on a valid run, each team's list is
ordered by the fixed position order GK < DEF < MID < ST (the combined sequence
is built in that order and each team list is a subsequence of it). -/
theorem C8_position_order (players : List Player) (T : Nat) (rnd : List Nat)
    (hT : 1 ≤ T) (hval : validRoster players) :
    ∃ (r : List Player) (ts : Teams),
      generate_teams players (T : Int) rnd = .ok (r, ts) ∧
      ∀ k, (teamList ts k).Pairwise (fun p q => posRank p.2 ≤ posRank q.2) := by
  obtain ⟨r, ts, heq, _, _, _, _, _, _, hsort⟩ := generate_teams_spec players T rnd hT hval
  exact ⟨r, ts, heq, hsort⟩

/-- Claim C8, witness at a concrete input. -/
theorem C8_position_order_witness :
    1 ≤ 1 ∧ validRoster [("A", "ST"), ("B", "GK")] ∧
    ∃ (r : List Player) (ts : Teams),
      generate_teams [("A", "ST"), ("B", "GK")] ((1 : Nat) : Int) [0, 0]
        = .ok (r, ts) ∧
      ∀ k, (teamList ts k).Pairwise (fun p q => posRank p.2 ≤ posRank q.2) :=
  ⟨by decide, by decide,
    C8_position_order [("A", "ST"), ("B", "GK")] 1 [0, 0] (by decide) (by decide)⟩

/-- Claim C9: with T ≥ 1, a roster whose positions are all GK/DEF/MID/ST makes
`generate_teams` complete without an exception, while any other position value
makes the grouping step raise KeyError. -/
theorem C9_valid_positions (players : List Player) (T : Nat) (rnd : List Nat)
    (hT : 1 ≤ T) :
    (validRoster players →
      ∃ res, generate_teams players (T : Int) rnd = .ok res) ∧
    ((∃ p ∈ players, validPos p = false) →
      generate_teams players (T : Int) rnd = .error .keyError) := by
  constructor
  · intro hval
    obtain ⟨r, ts, heq, _⟩ := generate_teams_spec players T rnd hT hval
    exact ⟨(r, ts), heq⟩
  · rintro ⟨p, hp, hpv⟩
    apply generate_teams_eq_groupError
    apply groupByPosition_error_of_invalid
    exact ⟨p, (pyShuffle_perm players rnd).mem_iff.mpr hp, hpv⟩

/-- Claim C9, witness at a concrete input. -/
theorem C9_valid_positions_witness :
    1 ≤ 1 ∧
    ((validRoster [("A", "XX")] →
      ∃ res, generate_teams [("A", "XX")] ((1 : Nat) : Int) [] = .ok res) ∧
    ((∃ p ∈ [("A", "XX")], validPos p = false) →
      generate_teams [("A", "XX")] ((1 : Nat) : Int) [] = .error .keyError)) :=
  ⟨by decide, C9_valid_positions [("A", "XX")] 1 [] (by decide)⟩

/-- Claim C10: with 0 < len(R) < T, each of the teams 1..len(R) gets exactly
one player (and appears as a key), while teams numbered above len(R) receive
no players and do not appear as keys in the returned mapping. -/
theorem C10_small_roster (players : List Player) (T : Nat) (rnd : List Nat)
    (hn : 0 < players.length) (hnT : players.length < T) (hval : validRoster players) :
    ∃ (r : List Player) (ts : Teams),
      generate_teams players (T : Int) rnd = .ok (r, ts) ∧
      (∀ k, 1 ≤ k → k ≤ players.length →
        (teamList ts k).length = 1 ∧ k ∈ keysOf ts) ∧
      (∀ k, players.length < k → k ∉ keysOf ts) := by
  have hT : 1 ≤ T := by omega
  obtain ⟨r, ts, heq, _, _, hsizes, hkeys, hgt, _, _⟩ :=
    generate_teams_spec players T rnd hT hval
  have hdiv : players.length / T = 0 := Nat.div_eq_of_lt hnT
  have hmod : players.length % T = players.length := Nat.mod_eq_of_lt hnT
  refine ⟨r, ts, heq, ?_, ?_⟩
  · intro k hk1 hkn
    have hiT : k - 1 < T := by omega
    have hlen := hsizes (k - 1) hiT
    rw [hdiv, hmod, if_pos (by omega : k - 1 < players.length),
      (by omega : k - 1 + 1 = k)] at hlen
    refine ⟨by omega, ?_⟩
    apply (hkeys k).mpr
    intro hknil
    rw [hknil] at hlen
    simp at hlen
  · intro k hk hkmem
    have hne := (hkeys k).mp hkmem
    by_cases hkT : k ≤ T
    · have hiT : k - 1 < T := by omega
      have hlen := hsizes (k - 1) hiT
      rw [hdiv, hmod, if_neg (by omega : ¬(k - 1 < players.length)),
        (by omega : k - 1 + 1 = k)] at hlen
      exact hne (List.length_eq_zero.mp (by omega))
    · exact hne (hgt k (by omega))

/-- Claim C10, witness at a concrete input (one player, five teams). -/
theorem C10_small_roster_witness :
    0 < ([("A", "ST")] : List Player).length ∧
    ([("A", "ST")] : List Player).length < 5 ∧
    validRoster [("A", "ST")] ∧
    ∃ (r : List Player) (ts : Teams),
      generate_teams [("A", "ST")] ((5 : Nat) : Int) [] = .ok (r, ts) ∧
      (∀ k, 1 ≤ k → k ≤ ([("A", "ST")] : List Player).length →
        (teamList ts k).length = 1 ∧ k ∈ keysOf ts) ∧
      (∀ k, ([("A", "ST")] : List Player).length < k → k ∉ keysOf ts) :=
  ⟨by decide, by decide, by decide,
    C10_small_roster [("A", "ST")] 5 [] (by decide) (by decide) (by decide)⟩
